import Mathlib

set_option maxRecDepth 100000

/-!
Verification of the document-to-structured-record pipeline of this repository
(src/app.py and src/paper_digest_assistant.py) against its specification.

Strings are modelled as `List Char`.  Python's exception-based control flow is
modelled with `Except`; the error taxonomy of the spec (§7) names the
constructors of `PipelineError` (the Python code raises `ValueError`/`Exception`
with messages; the spec's names are used for the corresponding raise sites).
In-place mutation of a Python dict is modelled by explicit state passing: the
function returns the post-state of the mutated argument.
-/

/-- Error taxonomy (spec §7) for the raise sites modelled here.
`insufficientContent` is the too-short/empty gate of `clean_text`
(src/paper_digest_assistant.py line 87) and of `fetch_content_from_url`
(src/app.py line 88); `malformedResponse` carries the first 200 characters of
the offending response text (src/app.py line 147); `schemaViolation` carries
the name of the missing required key (src/app.py line 153). -/
inductive PipelineError where
  | insufficientContent : PipelineError
  | malformedResponse : List Char → PipelineError
  | schemaViolation : List Char → PipelineError
deriving DecidableEq

deriving instance DecidableEq for Except

/-- The whitespace characters recognised by Python's `str.split()` /
`str.strip()` with no argument, restricted to the ASCII range
(space, tab, newline, carriage return, vertical tab, form feed). -/
def pyWhitespace (c : Char) : Bool :=
  c = ' ' || c = '\t' || c = '\n' || c = '\r' || c = '\x0b' || c = '\x0c'

/-- Worker for Python's `str.split()` (no separator argument): split on runs of
whitespace, discarding empty pieces; `acc` holds the current piece reversed. -/
def splitAux : List Char → List Char → List (List Char)
  | [], acc => if acc = [] then [] else [acc.reverse]
  | c :: rest, acc =>
    if pyWhitespace c then
      if acc = [] then splitAux rest [] else acc.reverse :: splitAux rest []
    else
      splitAux rest (c :: acc)

/-- Python's `text.split()` with no argument. -/
def pySplit (s : List Char) : List (List Char) :=
  splitAux s []

/-- Python's `sep.join(pieces)`. -/
def pyJoin (sep : List Char) : List (List Char) → List Char
  | [] => []
  | [x] => x
  | x :: xs => x ++ sep ++ pyJoin sep xs

/-- Python's `text.strip()` with no argument: drop leading and trailing
whitespace. -/
def pyStrip (l : List Char) : List Char :=
  (((l.dropWhile pyWhitespace).reverse.dropWhile pyWhitespace)).reverse

/-- The single-space separator used by `" ".join(...)`. -/
def spaceSep : List Char := (" ").toList

/-- Line 79 of src/paper_digest_assistant.py (= line 80 of src/app.py):
`" ".join(text.split())`, collapsing every whitespace run to one space. -/
def collapseWs (s : List Char) : List Char :=
  pyJoin spaceSep (pySplit s)

/-- Lines 79-80 of src/paper_digest_assistant.py: whitespace collapsing
followed by `strip()`. -/
def normalizeText (s : List Char) : List Char :=
  pyStrip (collapseWs s)

/-- The literal truncation marker appended at the length cap
(src/paper_digest_assistant.py line 84, src/app.py line 85). -/
def truncMarker : List Char := ("... [truncated]").toList

/-- `clean_text` of src/paper_digest_assistant.py (lines 74-89) with an
explicit `max_length` argument: collapse whitespace, strip, truncate to
`maxLength` characters plus the marker when longer than `maxLength`, then fail
when the text is empty or its stripped form is shorter than 100 characters.
The same statements appear inline in `fetch_content_from_url`
(src/app.py lines 80-88). -/
def cleanTextWith (maxLength : Nat) (text : List Char) : Except PipelineError (List Char) :=
  let t1 := pyStrip (collapseWs text)
  let t2 := if t1.length > maxLength then t1.take maxLength ++ truncMarker else t1
  if t2 = [] ∨ (pyStrip t2).length < 100 then
    Except.error PipelineError.insufficientContent
  else
    Except.ok t2

/-- `clean_text` at its default `max_length = 10000`, the value used at every
call site. -/
def cleanText (text : List Char) : Except PipelineError (List Char) :=
  cleanTextWith 10000 text

/-- Python's `s.startswith(pre)`. -/
def startsWithL (pre s : List Char) : Bool :=
  s.take pre.length == pre

/-- Python's `s.endswith(suf)` (`s[len s - len suf :] == suf`; when `suf` is
longer than `s` the comparison is between lists of different lengths and is
false, as in Python). -/
def endsWithL (suf s : List Char) : Bool :=
  s.drop (s.length - suf.length) == suf

/-- Python's `needle in haystack` substring test. -/
def containsL (needle : List Char) : List Char → Bool
  | [] => needle.isEmpty
  | c :: rest => startsWithL needle (c :: rest) || containsL needle rest

/-- ASCII lowering, modelling Python's `str.lower()` on the ASCII header
values that occur here. -/
def lowerL (s : List Char) : List Char :=
  s.map Char.toLower

/-- The recognized binary-document URL extension (src/app.py line 46). -/
def pdfExt : List Char := (".pdf").toList

/-- The binary-document media marker (src/app.py line 46). -/
def pdfMime : List Char := ("application/pdf").toList

/-- The format-detection test of src/app.py line 46:
`url.endswith('.pdf') or 'application/pdf' in content_type`, where
`content_type` was lowercased at line 43. -/
def isPdfResponse (url contentType : List Char) : Bool :=
  endsWithL pdfExt url || containsL pdfMime (lowerL contentType)

/-- The blank-line separator joining extracted pieces
(src/app.py line 59, src/paper_digest_assistant.py line 36). -/
def nlnl : List Char := ("\n\n").toList

/-- Number of pages read from a parsed PDF: `min(max_pages, len(reader.pages))`
(src/paper_digest_assistant.py line 30; src/app.py line 53 with the literal 5). -/
def pdfPagesToRead (maxPages : Nat) (pages : List (List Char)) : Nat :=
  min maxPages pages.length

/-- The page-reading loop of src/paper_digest_assistant.py lines 29-34
(= src/app.py lines 52-57): `for i in range(pages_to_read):
text_parts.append(reader.pages[i].extract_text())`.  A page is modelled by its
extracted text. -/
def extractPdfTexts (maxPages : Nat) (pages : List (List Char)) : List (List Char) :=
  (List.range (pdfPagesToRead maxPages pages)).map (fun i => pages.getD i [])

/-- PDF text assembly at the default page bound 5, the value used at every
call site: `"\n\n".join(text_parts)` (src/paper_digest_assistant.py line 36,
src/app.py line 59). -/
def pdfExtractText (pages : List (List Char)) : List Char :=
  pyJoin nlnl (extractPdfTexts 5 pages)

/-- `fetch_pdf_text` of src/paper_digest_assistant.py (lines 16-40), given the
extracted page texts of the downloaded document: page extraction followed by
`clean_text`. -/
def fetchPdfText (pages : List (List Char)) : Except PipelineError (List Char) :=
  cleanText (pdfExtractText pages)

/-- HTML extraction of src/app.py lines 63-77, given the text of each `<p>`
element (after script/style removal) and the whole-document text: keep
paragraphs whose stripped text is non-empty, fall back to the whole document
when none remain, and join with blank lines. -/
def htmlExtractText (paragraphs : List (List Char)) (allText : List Char) : List Char :=
  let parts := paragraphs.filter (fun p => !(pyStrip p).isEmpty)
  let parts2 := if parts.isEmpty then [allText] else parts
  pyJoin nlnl parts2

/-- An HTTP response, reduced to the parts `fetch_content_from_url` inspects:
the lowercased Content-Type header, and the results of the two format-specific
extractions (PDF page texts; `<p>` texts and whole-document text). -/
structure HttpResponse where
  contentType : List Char
  pdfPages : List (List Char)
  htmlParagraphs : List (List Char)
  htmlAllText : List Char

/-- `fetch_content_from_url` of src/app.py (lines 29-95) after a successful
HTTP GET: format detection (line 46), the matching extraction strategy, and
the inline cleaning of lines 80-88 (identical statements to `clean_text`). -/
def fetchContentFromUrl (url : List Char) (resp : HttpResponse) : Except PipelineError (List Char) :=
  let fullText :=
    if isPdfResponse url resp.contentType then pdfExtractText resp.pdfPages
    else htmlExtractText resp.htmlParagraphs resp.htmlAllText
  cleanText fullText

/-- JSON values as produced by `json.loads`.  Objects are association lists in
first-insertion order with unique keys (Python dict semantics; see
`objUpdate`).  Number parsing in this model covers integer numerals only — the
schema's fields are strings and lists of strings, so no claim depends on
non-integer numbers. -/
inductive Json where
  | str : List Char → Json
  | num : Int → Json
  | bool : Bool → Json
  | null : Json
  | arr : List Json → Json
  | obj : List (List Char × Json) → Json

/-- The association-list representation of a Python dict. -/
def JsonObj := List (List Char × Json)

/-- Python dict lookup `d[k]` / `k in d` support. -/
def lookupKey : JsonObj → List Char → Option Json
  | [], _ => none
  | (k0, v0) :: rest, k => if k0 = k then some v0 else lookupKey rest k

/-- Python's `k in d`. -/
def hasKey (obj : JsonObj) (k : List Char) : Bool :=
  (lookupKey obj k).isSome

/-- Python dict assignment `d[k] = v`: update the value in place when the key
exists (keeping its position), append otherwise. -/
def objUpdate : JsonObj → List Char → Json → JsonObj
  | [], k, v => [(k, v)]
  | (k0, v0) :: rest, k, v =>
    if k0 = k then (k, v) :: rest else (k0, v0) :: objUpdate rest k v

/-- The whitespace skipped between JSON tokens by `json.loads`. -/
def jsonWhitespace (c : Char) : Bool :=
  c = ' ' || c = '\t' || c = '\n' || c = '\r'

/-- The double-quote character. -/
def qchar : Char := '\"'

/-- The backslash character. -/
def bslash : Char := '\\'

/-- The backtick character (code 96), written via its code point. -/
def backtick : Char := Char.ofNat 96

/-- Left and right curly braces, written via their code points. -/
def lbraceC : Char := '\x7b'

/-- Right curly brace. -/
def rbraceC : Char := '\x7d'

/-- JSON string escape codes (`\uXXXX` escapes are outside this model; no
claim depends on them). -/
def escChar (c : Char) : Option Char :=
  if c = qchar then some qchar
  else if c = bslash then some bslash
  else if c = '/' then some '/'
  else if c = 'n' then some '\n'
  else if c = 't' then some '\t'
  else if c = 'r' then some '\r'
  else if c = 'b' then some '\x08'
  else if c = 'f' then some '\x0c'
  else none

/-- Parse the body of a JSON string literal (the opening quote already
consumed), returning the decoded text and the remaining input. -/
def parseStringLit : List Char → Option (List Char × List Char)
  | [] => none
  | c :: rest =>
    if c = qchar then some ([], rest)
    else if c = bslash then
      match rest with
      | [] => none
      | e :: rest2 =>
        match escChar e, parseStringLit rest2 with
        | some u, some (s, r) => some (u :: s, r)
        | _, _ => none
    else
      match parseStringLit rest with
      | some (s, r) => some (c :: s, r)
      | none => none

/-- Digit accumulator for integer numerals. -/
def digitsToNat (ds : List Char) : Nat :=
  ds.foldl (fun acc c => acc * 10 + (c.toNat - 48)) 0

/-- Parse an integer JSON numeral at the head of the input; fraction and
exponent forms are outside this model. -/
def parseNumberAt (s : List Char) : Option (Json × List Char) :=
  let p := match s with
    | c :: rest => if c = '-' then (true, rest) else (false, s)
    | [] => (false, s)
  let ds := p.2.takeWhile Char.isDigit
  let r := p.2.dropWhile Char.isDigit
  if ds = [] then none
  else
    let n : Int := Int.ofNat (digitsToNat ds)
    let v := Json.num (if p.1 then -n else n)
    match r with
    | c :: _ => if c = '.' ∨ c = 'e' ∨ c = 'E' then none else some (v, r)
    | [] => some (v, r)

/-- Literal `true`. -/
def trueLit : List Char := ("true").toList

/-- Literal `false`. -/
def falseLit : List Char := ("false").toList

/-- Literal `null`. -/
def nullLit : List Char := ("null").toList

/-- Parse the elements of a JSON array (the opening bracket and any following
whitespace already consumed), given the value parser `pv`; `isFirst` is true
before the first element. -/
def parseArrElems (pv : List Char → Option (Json × List Char)) :
    Nat → List Char → Bool → List Json → Option (Json × List Char)
  | 0, _, _, _ => none
  | Nat.succ fuel, s, isFirst, acc =>
    let s1 := s.dropWhile jsonWhitespace
    match s1 with
    | [] => none
    | c :: rest =>
      if c = ']' ∧ isFirst then some (Json.arr acc.reverse, rest)
      else
        match pv s1 with
        | none => none
        | some (v, r) =>
          let r1 := r.dropWhile jsonWhitespace
          match r1 with
          | c2 :: r2 =>
            if c2 = ']' then some (Json.arr (v :: acc).reverse, r2)
            else if c2 = ',' then parseArrElems pv fuel r2 false (v :: acc)
            else none
          | [] => none

/-- Parse the members of a JSON object (the opening brace and any following
whitespace already consumed); repeated keys follow Python dict semantics via
`objUpdate`. -/
def parseObjElems (pv : List Char → Option (Json × List Char)) :
    Nat → List Char → Bool → JsonObj → Option (Json × List Char)
  | 0, _, _, _ => none
  | Nat.succ fuel, s, isFirst, acc =>
    let s1 := s.dropWhile jsonWhitespace
    match s1 with
    | [] => none
    | c :: rest =>
      if c = rbraceC ∧ isFirst then some (Json.obj acc, rest)
      else if c = qchar then
        match parseStringLit rest with
        | none => none
        | some (key, r1) =>
          match r1.dropWhile jsonWhitespace with
          | ':' :: r3 =>
            match pv r3 with
            | none => none
            | some (v, r4) =>
              match r4.dropWhile jsonWhitespace with
              | c2 :: r6 =>
                if c2 = rbraceC then some (Json.obj (objUpdate acc key v), r6)
                else if c2 = ',' then parseObjElems pv fuel r6 false (objUpdate acc key v)
                else none
              | [] => none
          | _ => none
      else none

/-- Fuel-indexed JSON value parser. -/
def parseVal : Nat → List Char → Option (Json × List Char)
  | 0, _ => none
  | Nat.succ fuel, input =>
    let s := input.dropWhile jsonWhitespace
    match s with
    | [] => none
    | c :: rest =>
      if c = qchar then
        match parseStringLit rest with
        | some (str, r) => some (Json.str str, r)
        | none => none
      else if c = lbraceC then
        parseObjElems (parseVal fuel) (Nat.succ fuel) rest true []
      else if c = '[' then
        parseArrElems (parseVal fuel) (Nat.succ fuel) rest true []
      else if startsWithL trueLit s then some (Json.bool true, s.drop 4)
      else if startsWithL falseLit s then some (Json.bool false, s.drop 5)
      else if startsWithL nullLit s then some (Json.null, s.drop 4)
      else parseNumberAt s

/-- `json.loads`: parse one JSON document, requiring only trailing whitespace
after it. -/
def parseJson (s : List Char) : Option Json :=
  match parseVal (s.length + 2) s with
  | some (v, r) => if r.dropWhile jsonWhitespace = [] then some v else none
  | none => none

/-- The leading fenced-code marker tagged `json` (src/app.py line 135). -/
def fence7 : List Char := ("```json").toList

/-- The bare fence marker (src/app.py lines 137 and 139). -/
def bt3 : List Char := ("```").toList

/-- The fence-stripping of src/app.py lines 134-141
(= src/paper_digest_assistant.py lines 131-138): drop a leading tagged fence
(`content[7:]`), then a leading bare fence (`content[3:]`), then a trailing
fence (`content[:-3]`), then `strip()`. -/
def stripFences (content : List Char) : List Char :=
  let c1 := if startsWithL fence7 content then content.drop 7 else content
  let c2 := if startsWithL bt3 c1 then c1.drop 3 else c1
  let c3 := if endsWithL bt3 c2 then c2.take (c2.length - 3) else c2
  pyStrip c3

/-- The fence tag `json` (the part of `fence7` after the bare fence). -/
def jsonTag : List Char := ("json").toList

/-- Schema key `title`. -/
def titleKey : List Char := ("title").toList

/-- Schema key `abstract_summary` (Variant A). -/
def abstractSummaryKey : List Char := ("abstract_summary").toList

/-- Schema key `key_points` (Variant A's list-typed field). -/
def keyPointsKey : List Char := ("key_points").toList

/-- Schema key `methodology`. -/
def methodologyKey : List Char := ("methodology").toList

/-- Schema key `field_or_topic` (Variant B). -/
def fieldOrTopicKey : List Char := ("field_or_topic").toList

/-- Schema key `research_question` (Variant B). -/
def researchQuestionKey : List Char := ("research_question").toList

/-- Schema key `key_findings` (Variant B's list-typed field). -/
def keyFindingsKey : List Char := ("key_findings").toList

/-- Schema key `limitations` (Variant B). -/
def limitationsKey : List Char := ("limitations").toList

/-- Schema key `personal_takeaway` (Variant B). -/
def personalTakeawayKey : List Char := ("personal_takeaway").toList

/-- Variant A's required keys in declared order (src/app.py line 150). -/
def requiredKeysA : List (List Char) :=
  [titleKey, abstractSummaryKey, keyPointsKey, methodologyKey]

/-- Variant B's required keys in declared order
(src/paper_digest_assistant.py lines 147-148). -/
def requiredKeysB : List (List Char) :=
  [titleKey, fieldOrTopicKey, researchQuestionKey, methodologyKey,
   keyFindingsKey, limitationsKey, personalTakeawayKey]

/-- The required-key loop of src/app.py lines 151-153
(= src/paper_digest_assistant.py lines 149-151): fail on the first key of
`req` absent from the parsed object. -/
def checkRequired (req : List (List Char)) (obj : JsonObj) : Except PipelineError Unit :=
  match req with
  | [] => Except.ok ()
  | k :: rest =>
    if hasKey obj k then checkRequired rest obj
    else Except.error (PipelineError.schemaViolation k)

/-- Schema validation and list-field coercion of src/app.py lines 149-161
(= src/paper_digest_assistant.py lines 146-158): the required-key loop, then
`if not isinstance(x, list): if isinstance(x, str): d[k] = [x] else: d[k] = []`
for the variant's list-typed field `listKey`.  `listKey` occurs in `req` at
both call sites, so it is present whenever the key check passed; the `none`
branch is unreachable there. -/
def validateSummary (req : List (List Char)) (listKey : List Char) (obj : JsonObj) :
    Except PipelineError JsonObj :=
  match checkRequired req obj with
  | Except.error e => Except.error e
  | Except.ok _ =>
    match lookupKey obj listKey with
    | some (Json.arr _) => Except.ok obj
    | some (Json.str s) => Except.ok (objUpdate obj listKey (Json.arr [Json.str s]))
    | some _ => Except.ok (objUpdate obj listKey (Json.arr []))
    | none => Except.ok (objUpdate obj listKey (Json.arr []))

/-- Modelled from the spec (§4.4): the tagged coercion the spec describes for
a list-typed field — keep a list, wrap a bare string, empty list otherwise.
Stated separately from `validateSummary` (which mirrors the source's
`isinstance` chain) so the two can be compared. -/
def coerceListFieldSpec : Json → Json
  | Json.arr l => Json.arr l
  | Json.str s => Json.arr [Json.str s]
  | _ => Json.arr []

/-- Response post-processing of `summarize_paper_with_openai`
(src/app.py lines 132-161) for a schema given by `req`/`listKey`: `strip()`
the model output, strip fences, parse JSON, then validate and coerce.
`json.loads` can also return a non-object; the membership test then fails for
every schema key on the list/number/bool/null shapes, which the last branch
models with the first required key (Variant A and B both start with `title`);
Python's substring semantics of `in` on a top-level string response are
outside this model and outside every claim. -/
def processResponse (req : List (List Char)) (listKey : List Char)
    (content : List Char) : Except PipelineError JsonObj :=
  let c := stripFences (pyStrip content)
  match parseJson c with
  | none => Except.error (PipelineError.malformedResponse (c.take 200))
  | some (Json.obj members) => validateSummary req listKey members
  | some _ => Except.error (PipelineError.schemaViolation titleKey)

/-- Variant A post-processing (src/app.py). -/
def processResponseA (content : List Char) : Except PipelineError JsonObj :=
  processResponse requiredKeysA keyPointsKey content

/-- Variant B post-processing (src/paper_digest_assistant.py). -/
def processResponseB (content : List Char) : Except PipelineError JsonObj :=
  processResponse requiredKeysB keyFindingsKey content

/-- The pipeline order of src/app.py lines 251-255 (and
src/paper_digest_assistant.py lines 272/322): normalization (inside the fetch
step) runs, and only on success is the structured extractor invoked on the
cleaned text. -/
def summarizePipeline (extractor : List Char → Except PipelineError JsonObj)
    (rawText : List Char) : Except PipelineError JsonObj :=
  match cleanText rawText with
  | Except.error e => Except.error e
  | Except.ok t => extractor t

/-- The `"\n- "` separator of src/app.py lines 184 and 263. -/
def bulletSep : List Char := ("\n- ").toList

/-- `"\n- ".join([""] + items)` (src/app.py line 184). -/
def flattenKeyPoints (items : List (List Char)) : List Char :=
  pyJoin bulletSep ([] :: items)

/-- The string-or-list shapes the `key_points` entry takes in the app
(Python's `join` raises on non-string items; such items never reach this
point in the claims considered). -/
inductive FieldVal where
  | s : List Char → FieldVal
  | l : List (List Char) → FieldVal
deriving DecidableEq

/-- The `data` dict passed to `insert_paper_record` (src/app.py lines 170-194). -/
structure PaperData where
  title : List Char
  url : List Char
  abstractSummary : List Char
  keyPoints : FieldVal
  methodology : List Char
deriving DecidableEq

/-- Post-state of the caller-owned `data` dict after the
`data["key_points"] = "\n- ".join([""] + data["key_points"])` statement of
`insert_paper_record` (src/app.py lines 183-184); the in-place dict mutation
is modelled by returning the dict's new state. -/
def insertPaperRecordData (data : PaperData) : PaperData :=
  match data.keyPoints with
  | FieldVal.l items => { data with keyPoints := FieldVal.s (flattenKeyPoints items) }
  | FieldVal.s _ => data

/-- A concrete input whose normalized form is shorter than 100 characters. -/
def c1ShortInput : List Char := ("too short").toList

/-- A concrete URL whose path ends in the recognized extension. -/
def urlPdfEx : List Char := ("http://example.com/paper.pdf").toList

/-- A concrete declared content type inconsistent with a `.pdf` extension. -/
def ctHtmlEx : List Char := ("text/html").toList

/-- A concrete Variant A response object whose list field is a bare string. -/
def c4Obj : JsonObj :=
  [(titleKey, Json.str (("T").toList)),
   (abstractSummaryKey, Json.str (("A").toList)),
   (keyPointsKey, Json.str (("P").toList)),
   (methodologyKey, Json.str (("M").toList))]

/-- The Variant A response of spec scenario 4: only `title` present. -/
def c5Obj : JsonObj := [(titleKey, Json.str (("X").toList))]

/-- A concrete valid Variant A JSON object text (no fences). -/
def jsonBodyEx : List Char :=
  ("\x7b\"title\": \"T\", \"abstract_summary\": \"A\", \"key_points\": [\"P\"], \"methodology\": \"M\"\x7d").toList

/-- The object `jsonBodyEx` parses and validates to. -/
def c6Expected : JsonObj :=
  [(titleKey, Json.str (("T").toList)),
   (abstractSummaryKey, Json.str (("A").toList)),
   (keyPointsKey, Json.arr [Json.str (("P").toList)]),
   (methodologyKey, Json.str (("M").toList))]

/-- An eight-page document, each page modelled by its text. -/
def pages8 : List (List Char) :=
  [("p1").toList, ("p2").toList, ("p3").toList, ("p4").toList,
   ("p5").toList, ("p6").toList, ("p7").toList, ("p8").toList]

/-- The same document with different pages after the fifth. -/
def pages8' : List (List Char) :=
  [("p1").toList, ("p2").toList, ("p3").toList, ("p4").toList,
   ("p5").toList, ("x6").toList, ("x7").toList, ("x8").toList]

/-- A 199-character string with no two adjacent whitespace characters and no
leading or trailing whitespace, containing a single interior tab. -/
def c9CexInput : List Char :=
  List.replicate 99 'a' ++ '\t' :: List.replicate 99 'a'

/-- A concrete `data` dict with a list-valued `key_points` entry. -/
def c10Data : PaperData :=
  { title := ("T").toList, url := ("u").toList,
    abstractSummary := ("A").toList,
    keyPoints := FieldVal.l [("a").toList, ("b").toList],
    methodology := ("M").toList }

/-- Every whitespace character in the string is a plain space. -/
def allWsSpace : List Char → Bool
  | [] => true
  | c :: rest => (!pyWhitespace c || c = ' ') && allWsSpace rest

/-- No two adjacent whitespace characters. -/
def noAdjWs : List Char → Bool
  | [] => true
  | [_] => true
  | a :: b :: rest => !(pyWhitespace a && pyWhitespace b) && noAdjWs (b :: rest)

/-- Whether the first character exists and is whitespace. -/
def headIsWs : List Char → Bool
  | [] => false
  | c :: _ => pyWhitespace c

/-- The last character, when present, is not whitespace. -/
def lastNonWs : List Char → Bool
  | [] => true
  | [c] => !pyWhitespace c
  | _ :: rest => lastNonWs rest

/-! ## Helper lemmas -/

/-- The head of `dropWhile p` never satisfies `p`. -/
theorem dropWhile_head?_false {p : Char → Bool} {l : List Char} {c : Char}
    (h : (l.dropWhile p).head? = some c) : p c = false := by
  have hm := List.head?_dropWhile_not p l
  rw [h] at hm
  exact hm

/-- `dropWhile` keeps the last element when its result is non-empty. -/
theorem getLast?_dropWhile (p : Char → Bool) :
    ∀ l : List Char, l.dropWhile p ≠ [] → (l.dropWhile p).getLast? = l.getLast? := by
  intro l
  induction l with
  | nil => intro h; simp at h
  | cons a t ih =>
    intro h
    by_cases hp : p a
    · rw [List.dropWhile_cons_of_pos hp] at h ⊢
      have ht : t ≠ [] := by
        intro he; rw [he] at h; simp at h
      rw [ih h]
      cases t with
      | nil => exact absurd rfl ht
      | cons b t2 => rw [List.getLast?_cons_cons]
    · rw [List.dropWhile_cons_of_neg hp]

/-- The first character of a stripped string is not whitespace. -/
theorem pyStrip_head? {l : List Char} {c : Char}
    (h : (pyStrip l).head? = some c) : pyWhitespace c = false := by
  unfold pyStrip at h
  rw [List.head?_reverse] at h
  have hne : ((l.dropWhile pyWhitespace).reverse.dropWhile pyWhitespace) ≠ [] := by
    intro he; rw [he] at h; simp at h
  rw [getLast?_dropWhile _ _ hne, List.getLast?_reverse] at h
  exact dropWhile_head?_false h

/-- The last character of a stripped string is not whitespace. -/
theorem pyStrip_getLast? {l : List Char} {c : Char}
    (h : (pyStrip l).getLast? = some c) : pyWhitespace c = false := by
  unfold pyStrip at h
  rw [List.getLast?_reverse] at h
  exact dropWhile_head?_false h

/-- `dropWhile` is the identity when the head does not satisfy the predicate. -/
theorem dropWhile_eq_self_of_head (p : Char → Bool) (l : List Char)
    (h : ∀ c, l.head? = some c → p c = false) : l.dropWhile p = l := by
  cases l with
  | nil => rfl
  | cons a t =>
    have ha := h a rfl
    simp [List.dropWhile_cons, ha]

/-- `pyStrip` is the identity on strings with non-whitespace boundaries. -/
theorem pyStrip_eq_self {l : List Char}
    (h1 : ∀ c, l.head? = some c → pyWhitespace c = false)
    (h2 : ∀ c, l.getLast? = some c → pyWhitespace c = false) : pyStrip l = l := by
  unfold pyStrip
  rw [dropWhile_eq_self_of_head _ _ h1]
  rw [dropWhile_eq_self_of_head _ _ (fun c hc => h2 c (by rwa [List.head?_reverse] at hc))]
  exact List.reverse_reverse l

/-- Stripping is idempotent. -/
theorem pyStrip_idem (l : List Char) : pyStrip (pyStrip l) = pyStrip l :=
  pyStrip_eq_self (fun _ hc => pyStrip_head? hc) (fun _ hc => pyStrip_getLast? hc)

/-- `take` keeps the head for a positive count. -/
theorem head?_take {l : List Char} {n : Nat} (h : n ≠ 0) : (l.take n).head? = l.head? := by
  cases l with
  | nil => simp
  | cons a t =>
    cases n with
    | zero => exact absurd rfl h
    | succ m => rfl

/-- `splitAux` on a run of a single non-whitespace character accumulates it
whole. -/
theorem splitAux_replicate_a :
    ∀ (n : Nat) (acc : List Char),
      splitAux (List.replicate n 'a') acc =
        if acc.reverse ++ List.replicate n 'a' = [] then []
        else [acc.reverse ++ List.replicate n 'a'] := by
  intro n
  induction n with
  | zero =>
    intro acc
    by_cases h : acc = []
    · simp [splitAux, h]
    · have h2 : acc.reverse ≠ [] := by simpa using h
      simp [splitAux, h, h2]
  | succ m ih =>
    intro acc
    rw [List.replicate_succ]
    show splitAux ('a' :: List.replicate m 'a') acc = _
    have hws : pyWhitespace 'a' = false := by decide
    rw [splitAux, if_neg (by simp [hws]), ih ('a' :: acc)]
    have hrev : ('a' :: acc).reverse = acc.reverse ++ ['a'] := by simp
    rw [hrev]
    have hne1 : acc.reverse ++ ['a'] ++ List.replicate m 'a' ≠ [] := by simp
    have hne2 : acc.reverse ++ 'a' :: List.replicate m 'a' ≠ [] := by simp
    rw [if_neg hne1, if_neg hne2]
    simp

/-- Normalization fixes a non-empty run of a single letter. -/
theorem normalizeText_replicate_a {n : Nat} (h : 0 < n) :
    normalizeText (List.replicate n 'a') = List.replicate n 'a' := by
  have hsplit : pySplit (List.replicate n 'a') = [List.replicate n 'a'] := by
    unfold pySplit
    rw [splitAux_replicate_a n []]
    have : List.replicate n 'a' ≠ [] := by
      simpa using Nat.pos_iff_ne_zero.mp h
    simp [this]
  have hcoll : collapseWs (List.replicate n 'a') = List.replicate n 'a' := by
    unfold collapseWs
    rw [hsplit]
    rfl
  unfold normalizeText
  rw [hcoll]
  apply pyStrip_eq_self
  · intro c hc
    cases n with
    | zero => exact absurd h (by simp)
    | succ m =>
      rw [List.replicate_succ] at hc
      simp at hc
      rw [← hc]
      decide
  · intro c hc
    have hmem : c ∈ List.replicate n 'a' := List.mem_of_getLast?_eq_some hc
    have := List.eq_of_mem_replicate hmem
    rw [this]
    decide

/-! ## Claim theorems -/

/-- C1: for every input string whose normalized (whitespace-collapsed,
stripped) form is shorter than 100 characters, `clean_text` fails with
`InsufficientContentError`, and the pipeline never invokes the structured
extractor on that input (the result is the same error, whatever the
extractor). -/
theorem short_input_fails_before_extractor (raw : List Char)
    (h : (normalizeText raw).length < 100) :
    cleanText raw = Except.error PipelineError.insufficientContent ∧
    ∀ extractor, summarizePipeline extractor raw =
      Except.error PipelineError.insufficientContent := by
  simp only [normalizeText] at h
  have hclean : cleanText raw = Except.error PipelineError.insufficientContent := by
    simp only [cleanText, cleanTextWith]
    have h10 : ¬ (pyStrip (collapseWs raw)).length > 10000 := by omega
    rw [if_neg h10, if_pos (Or.inr (by rw [pyStrip_idem]; exact h))]
  refine ⟨hclean, fun extractor => ?_⟩
  unfold summarizePipeline
  rw [hclean]

/-- C1 witness: a 9-character input is rejected and a concrete extractor is
never reached. -/
theorem short_input_fails_before_extractor_witness :
    cleanText c1ShortInput = Except.error PipelineError.insufficientContent ∧
    summarizePipeline (fun t => Except.ok [(titleKey, Json.str t)]) c1ShortInput =
      Except.error PipelineError.insufficientContent := by
  have h := short_input_fails_before_extractor c1ShortInput (by decide)
  exact ⟨h.1, h.2 _⟩

/-- C2: for every input whose whitespace-collapsed, stripped form is longer
than 10000 characters, `clean_text` returns the first 10000 characters of the
collapsed text followed by the literal marker `"... [truncated]"`; the result
has length exactly 10000 + 15 = 10015, its first 10000 characters are the
first 10000 characters of the collapsed text, and it ends with the marker. -/
theorem truncation_shape (raw : List Char)
    (h : 10000 < (normalizeText raw).length) :
    cleanText raw = Except.ok ((normalizeText raw).take 10000 ++ truncMarker) ∧
    ((normalizeText raw).take 10000 ++ truncMarker).length = 10000 + truncMarker.length ∧
    ((normalizeText raw).take 10000 ++ truncMarker).length = 10015 ∧
    ((normalizeText raw).take 10000 ++ truncMarker).take 10000 = (normalizeText raw).take 10000 ∧
    ((normalizeText raw).take 10000 ++ truncMarker).drop 10000 = truncMarker := by
  simp only [normalizeText] at h ⊢
  have hlen1 : ((pyStrip (collapseWs raw)).take 10000).length = 10000 := by
    rw [List.length_take]
    omega
  have hmark : truncMarker.length = 15 := by decide
  have hlen : ((pyStrip (collapseWs raw)).take 10000 ++ truncMarker).length = 10015 := by
    rw [List.length_append, hlen1, hmark]
  have htake : ((pyStrip (collapseWs raw)).take 10000 ++ truncMarker).take 10000 =
      (pyStrip (collapseWs raw)).take 10000 := List.take_left' hlen1
  have hdrop : ((pyStrip (collapseWs raw)).take 10000 ++ truncMarker).drop 10000 =
      truncMarker := List.drop_left' hlen1
  have hne : pyStrip (collapseWs raw) ≠ [] := by
    intro he
    rw [he] at h
    simp at h
  have hhead : ∀ c, ((pyStrip (collapseWs raw)).take 10000 ++ truncMarker).head? = some c →
      pyWhitespace c = false := by
    intro c hc
    rw [List.head?_append, head?_take (by decide)] at hc
    cases hq : (pyStrip (collapseWs raw)).head? with
    | none => exact absurd (List.head?_eq_none_iff.mp hq) hne
    | some d =>
      rw [hq] at hc
      simp only [Option.or] at hc
      have hdc : d = c := by injection hc
      rw [← hdc]
      exact pyStrip_head? hq
  have hlast : ∀ c, ((pyStrip (collapseWs raw)).take 10000 ++ truncMarker).getLast? = some c →
      pyWhitespace c = false := by
    intro c hc
    rw [List.getLast?_append] at hc
    have hm : truncMarker.getLast? = some ']' := rfl
    rw [hm] at hc
    simp only [Option.or] at hc
    have hdc : (']' : Char) = c := by injection hc
    rw [← hdc]
    decide
  have hstrip := pyStrip_eq_self hhead hlast
  have hgate : ¬ (((pyStrip (collapseWs raw)).take 10000 ++ truncMarker) = [] ∨
      (pyStrip ((pyStrip (collapseWs raw)).take 10000 ++ truncMarker)).length < 100) := by
    rw [hstrip]
    rintro (he | hlt)
    · rw [he] at hlen
      simp at hlen
    · rw [hlen] at hlt
      exact absurd hlt (by decide)
  have hok : cleanText raw = Except.ok ((pyStrip (collapseWs raw)).take 10000 ++ truncMarker) := by
    simp only [cleanText, cleanTextWith]
    rw [if_pos h, if_neg hgate]
  exact ⟨hok, by rw [hlen, hmark], hlen, htake, hdrop⟩

/-- C2 witness: a 10001-character input is truncated to the 10015-character
shape. -/
theorem truncation_shape_witness :
    cleanText (List.replicate 10001 'a') =
      Except.ok ((normalizeText (List.replicate 10001 'a')).take 10000 ++ truncMarker) ∧
    ((normalizeText (List.replicate 10001 'a')).take 10000 ++ truncMarker).length = 10015 := by
  have hn : normalizeText (List.replicate 10001 'a') = List.replicate 10001 'a' :=
    normalizeText_replicate_a (by omega)
  have h : 10000 < (normalizeText (List.replicate 10001 'a')).length := by
    rw [hn, List.length_replicate]
    omega
  have hthm := truncation_shape (List.replicate 10001 'a') h
  exact ⟨hthm.1, hthm.2.2.1⟩

/-- `lastNonWs` is preserved by dropping the head. -/
theorem lastNonWs_tail {a : Char} {t : List Char}
    (h : lastNonWs (a :: t) = true) : lastNonWs t = true := by
  cases t with
  | nil => rfl
  | cons b t2 => exact h

/-- A true `lastNonWs` means the last character is not whitespace. -/
theorem lastNonWs_getLast? : ∀ {l : List Char} {c : Char},
    lastNonWs l = true → l.getLast? = some c → pyWhitespace c = false := by
  intro l
  induction l with
  | nil => intro c _ hc; cases hc
  | cons a t ih =>
    intro c hl hc
    cases t with
    | nil =>
      have ha : a = c := by
        simp at hc
        exact hc
      rw [← ha]
      simpa [lastNonWs] using hl
    | cons b t2 =>
      rw [List.getLast?_cons_cons] at hc
      exact ih (lastNonWs_tail hl) hc

/-- Rebuilding lemma: on text whose whitespace consists of isolated interior
spaces with a non-whitespace last character, splitting and space-joining
restores the text after the pending accumulator. -/
theorem splitAux_join : ∀ (s : List Char) (acc : List Char),
    allWsSpace s = true → noAdjWs s = true → lastNonWs s = true →
    (headIsWs s = true → acc ≠ []) →
    pyJoin spaceSep (splitAux s acc) = acc.reverse ++ s := by
  intro s
  induction s with
  | nil =>
    intro acc _ _ _ _
    by_cases h : acc = []
    · simp [splitAux, h, pyJoin]
    · simp [splitAux, h, pyJoin]
  | cons c rest ih =>
    intro acc hall hadj hlast hhead
    simp only [allWsSpace, Bool.and_eq_true] at hall
    have hallr : allWsSpace rest = true := hall.2
    have hadjr : noAdjWs rest = true := by
      cases rest with
      | nil => rfl
      | cons b r2 =>
        simp only [noAdjWs, Bool.and_eq_true] at hadj
        exact hadj.2
    by_cases hws : pyWhitespace c = true
    · have hacc : acc ≠ [] := hhead (by simp [headIsWs, hws])
      have hc : c = ' ' := by
        have h1 := hall.1
        rw [hws] at h1
        simpa using h1
      have hrne : rest ≠ [] := by
        intro he
        rw [he] at hlast
        simp [lastNonWs, hws] at hlast
      have hrhead : headIsWs rest = false := by
        cases rest with
        | nil => rfl
        | cons b r2 =>
          simp only [noAdjWs, Bool.and_eq_true] at hadj
          have hb := hadj.1
          rw [hws] at hb
          simp at hb
          simp [headIsWs, hb]
      have hjr : pyJoin spaceSep (splitAux rest []) = rest := by
        have := ih [] hallr hadjr (lastNonWs_tail hlast)
          (fun hcontra => by rw [hrhead] at hcontra; cases hcontra)
        simpa using this
      have hsne : splitAux rest [] ≠ [] := by
        intro he
        rw [he] at hjr
        exact hrne (by simpa [pyJoin] using hjr.symm)
      rw [splitAux, if_pos hws, if_neg hacc]
      cases hsp : splitAux rest [] with
      | nil => exact absurd hsp hsne
      | cons p ps =>
        rw [hsp] at hjr
        show pyJoin spaceSep (acc.reverse :: p :: ps) = acc.reverse ++ c :: rest
        have : pyJoin spaceSep (acc.reverse :: p :: ps) =
            acc.reverse ++ spaceSep ++ pyJoin spaceSep (p :: ps) := rfl
        rw [this, hjr, hc]
        simp [spaceSep]
    · rw [splitAux, if_neg hws]
      have := ih (c :: acc) hallr hadjr (lastNonWs_tail hlast)
        (fun _ => List.cons_ne_nil c acc)
      rw [this]
      simp

/-- C9 counterexample: the claim's conditions (no two adjacent whitespace
characters, no leading or trailing whitespace, length at most 10000) hold of a
199-character string with one interior tab, yet `clean_text` does not return
it unchanged — the tab is replaced by a space. -/
theorem normalize_idempotence_cex :
    noAdjWs c9CexInput = true ∧ headIsWs c9CexInput = false ∧
    lastNonWs c9CexInput = true ∧ c9CexInput.length ≤ 10000 ∧
    ¬ (cleanText c9CexInput = Except.ok c9CexInput) := by
  decide

/-- C9 amended: for every string in which every whitespace character is a
plain interior space, with no two adjacent whitespace characters, no leading
or trailing whitespace, and length between 100 and 10000, `clean_text`
returns the string unchanged. -/
theorem normalize_idempotent_on_clean (s : List Char)
    (hall : allWsSpace s = true) (hadj : noAdjWs s = true)
    (hhead : headIsWs s = false) (hlast : lastNonWs s = true)
    (hlen1 : 100 ≤ s.length) (hlen2 : s.length ≤ 10000) :
    cleanText s = Except.ok s := by
  have hcoll : collapseWs s = s := by
    unfold collapseWs pySplit
    have := splitAux_join s [] hall hadj hlast
      (fun hc => by rw [hhead] at hc; cases hc)
    simpa using this
  have hstrip : pyStrip s = s := by
    apply pyStrip_eq_self
    · intro c hc
      cases s with
      | nil => cases hc
      | cons a t =>
        have hac : a = c := by injection hc
        rw [← hac]
        simpa [headIsWs] using hhead
    · intro c hc
      exact lastNonWs_getLast? hlast hc
  simp only [cleanText, cleanTextWith]
  rw [hcoll, hstrip]
  rw [if_neg (by omega : ¬ s.length > 10000)]
  rw [hstrip]
  rw [if_neg ?hgate]
  case hgate =>
    rintro (he | hlt)
    · rw [he] at hlen1
      simp at hlen1
    · omega

/-- C9 witness: a 100-character normalized string is returned unchanged. -/
theorem normalize_idempotent_on_clean_witness :
    cleanText (List.replicate 100 'a') = Except.ok (List.replicate 100 'a') :=
  normalize_idempotent_on_clean (List.replicate 100 'a')
    (by decide) (by decide) (by decide) (by decide) (by decide) (by decide)

/-- Join with a leading empty piece is the concatenation of
separator-prefixed pieces. -/
theorem pyJoin_cons_flatten (sep : List Char) :
    ∀ (rest : List (List Char)) (a : List Char),
      pyJoin sep (a :: rest) = a ++ (rest.map (fun x => sep ++ x)).flatten := by
  intro rest
  induction rest with
  | nil =>
    intro a
    simp [pyJoin]
  | cons b rs ih =>
    intro a
    show a ++ sep ++ pyJoin sep (b :: rs) = _
    rw [ih b]
    simp [List.append_assoc]

/-- C7 counterexample: for the one-element list `["a"]`, the flattened string
is `"\n- a"`, not the claimed `"- a"` — `"\n- ".join([""] + items)` puts a
separator before the first item as well. -/
theorem flatten_leading_separator_cex :
    flattenKeyPoints [("a").toList] = ("\n- a").toList ∧
    ¬ (flattenKeyPoints [("a").toList] = ("- a").toList) := by
  decide

/-- C7 amended: the persistence step flattens a list `[x1, ..., xn]` into the
concatenation of the items each prefixed with `"\n- "` (newline, dash,
space), in their original order — i.e. `"\n- x1\n- x2...\n- xn"`, with a
leading newline before the first bullet. -/
theorem flatten_bullet_shape (items : List (List Char)) :
    flattenKeyPoints items = (items.map (fun x => bulletSep ++ x)).flatten := by
  unfold flattenKeyPoints
  rw [pyJoin_cons_flatten bulletSep items []]
  rfl

/-- C10: when the `data` dict passed to `insert_paper_record` has a
list-valued `key_points` entry, the function overwrites that entry in place
with the flattened string, so the caller-owned dict is no longer equal to its
pre-call state. -/
theorem insert_mutates_key_points (data : PaperData) (items : List (List Char))
    (h : data.keyPoints = FieldVal.l items) :
    (insertPaperRecordData data).keyPoints = FieldVal.s (flattenKeyPoints items) ∧
    insertPaperRecordData data ≠ data := by
  have hmut : insertPaperRecordData data =
      { data with keyPoints := FieldVal.s (flattenKeyPoints items) } := by
    unfold insertPaperRecordData
    rw [h]
  constructor
  · rw [hmut]
  · rw [hmut]
    intro he
    have h2 := congrArg PaperData.keyPoints he
    simp [h] at h2

/-- C10 witness: a concrete dict with `key_points = ["a", "b"]` is mutated. -/
theorem insert_mutates_key_points_witness :
    (insertPaperRecordData c10Data).keyPoints =
      FieldVal.s (flattenKeyPoints [("a").toList, ("b").toList]) ∧
    insertPaperRecordData c10Data ≠ c10Data :=
  insert_mutates_key_points c10Data [("a").toList, ("b").toList] rfl

/-- Indexing `getD` over `range n` recovers `take n` when `n` is within the
list. -/
theorem getD_range_take :
    ∀ (l : List (List Char)) (n : Nat), n ≤ l.length →
      (List.range n).map (fun i => l.getD i []) = l.take n := by
  intro l
  induction l with
  | nil =>
    intro n hn
    have : n = 0 := by simpa using hn
    simp [this]
  | cons a t ih =>
    intro n hn
    cases n with
    | zero => simp
    | succ m =>
      rw [List.range_succ_eq_map, List.map_cons, List.map_map]
      have hm : m ≤ t.length := by simpa using hn
      have : (List.range m).map ((fun i => (a :: t).getD i []) ∘ Nat.succ) =
          (List.range m).map (fun i => t.getD i []) := by
        apply List.map_congr_left
        intro i _
        rfl
      rw [this, ih m hm]
      rfl

/-- Taking `min 5 (length l)` elements is taking 5. -/
theorem take_min_five (l : List (List Char)) : l.take (min 5 l.length) = l.take 5 := by
  by_cases h : 5 ≤ l.length
  · rw [Nat.min_eq_left h]
  · have h5 : l.length ≤ 5 := by omega
    rw [Nat.min_eq_right h5, List.take_length]
    exact (List.take_of_length_le h5).symm

/-- C8: PDF extraction reads exactly the first `min(5, total_pages)` pages —
the assembled text is the blank-line join of `take (min 5 total) pages` —
and pages beyond the fifth are never read: any two documents agreeing on
their first five pages yield the same extracted text. -/
theorem pdf_first_five_pages (pages pages2 : List (List Char))
    (h : pages.take 5 = pages2.take 5) :
    pdfExtractText pages = pyJoin nlnl (pages.take (pdfPagesToRead 5 pages)) ∧
    pdfExtractText pages = pdfExtractText pages2 := by
  have hshape : ∀ ps : List (List Char),
      pdfExtractText ps = pyJoin nlnl (ps.take 5) := by
    intro ps
    unfold pdfExtractText extractPdfTexts
    rw [getD_range_take ps (pdfPagesToRead 5 ps) (Nat.min_le_right 5 ps.length)]
    unfold pdfPagesToRead
    rw [take_min_five]
  constructor
  · rw [hshape pages]
    unfold pdfPagesToRead
    rw [take_min_five]
  · rw [hshape pages, hshape pages2, h]

/-- C8 witness: spec scenario 1 — an eight-page document is read up to page
five; changing pages six to eight does not change the extracted text. -/
theorem pdf_first_five_pages_witness :
    pdfExtractText pages8 = pyJoin nlnl (pages8.take (pdfPagesToRead 5 pages8)) ∧
    pdfExtractText pages8 = pdfExtractText pages8' :=
  pdf_first_five_pages pages8 pages8' (by decide)

/-- `startsWithL` is the prefix relation. -/
theorem startsWithL_iff {pre s : List Char} :
    startsWithL pre s = true ↔ pre <+: s := by
  unfold startsWithL
  rw [beq_iff_eq, List.prefix_iff_eq_take]
  constructor
  · intro h
    exact h.symm
  · intro h
    exact h.symm

/-- `endsWithL` is the suffix relation. -/
theorem endsWithL_iff {suf s : List Char} :
    endsWithL suf s = true ↔ suf <:+ s := by
  unfold endsWithL
  rw [beq_iff_eq]
  constructor
  · intro h
    rw [← h]
    exact List.drop_suffix _ _
  · rintro ⟨t, ht⟩
    have hlen : s.length - suf.length = t.length := by
      rw [← ht, List.length_append]
      omega
    rw [hlen, ← ht]
    exact List.drop_left t suf

/-- `containsL` is the infix (substring) relation. -/
theorem containsL_iff {needle : List Char} :
    ∀ {s : List Char}, containsL needle s = true ↔ needle <:+: s := by
  intro s
  induction s with
  | nil =>
    simp only [containsL, List.isEmpty_iff, List.infix_nil]
  | cons c rest ih =>
    simp only [containsL, Bool.or_eq_true, List.infix_cons_iff]
    rw [startsWithL_iff, ih]

/-- C3 counterexample: for the URL `http://example.com/paper.pdf` with
declared content type `text/html` — present and inconsistent with the
extension — the code classifies the resource as a binary document even though
the declared content type does not contain the binary-document marker: the
declared content type is not authoritative over the extension. -/
theorem content_type_not_authoritative_cex :
    endsWithL pdfExt urlPdfEx = true ∧
    ctHtmlEx ≠ [] ∧
    containsL pdfMime (lowerL ctHtmlEx) = false ∧
    isPdfResponse urlPdfEx ctHtmlEx = true := by
  decide

/-- C3 amended: the fetcher classifies a resource as a binary document (PDF)
if and only if the URL ends in the recognized extension OR the lowercased
declared content type contains the binary-document media marker; the
extension is never overridden — a URL ending in `.pdf` is classified as a
binary document whatever the declared content type says. -/
theorem format_detection_disjunction :
    (∀ url ctype : List Char,
      isPdfResponse url ctype = true ↔
        (pdfExt <:+ url ∨ pdfMime <:+: lowerL ctype)) ∧
    (∀ url ctype : List Char,
      endsWithL pdfExt url = true → isPdfResponse url ctype = true) := by
  constructor
  · intro url ctype
    unfold isPdfResponse
    rw [Bool.or_eq_true, endsWithL_iff, containsL_iff]
  · intro url ctype h
    unfold isPdfResponse
    rw [h, Bool.true_or]

/-- C3 amended witness: the `.pdf` extension forces the binary-document
classification even against `text/html`. -/
theorem format_detection_disjunction_witness :
    isPdfResponse urlPdfEx ctHtmlEx = true :=
  format_detection_disjunction.2 urlPdfEx ctHtmlEx (by decide)

/-- Updating a key with the value it already holds (at its first occurrence)
leaves the object unchanged. -/
theorem objUpdate_self : ∀ (obj : JsonObj) (k : List Char) (v : Json),
    lookupKey obj k = some v → objUpdate obj k v = obj := by
  intro obj
  induction obj with
  | nil => intro k v h; cases h
  | cons p rest ih =>
    intro k v h
    obtain ⟨k0, v0⟩ := p
    by_cases hk : k0 = k
    · rw [lookupKey, if_pos hk] at h
      have hv : v0 = v := by injection h
      rw [objUpdate, if_pos hk, hk, hv]
    · rw [lookupKey, if_neg hk] at h
      rw [objUpdate, if_neg hk, ih k v h]

/-- The required-key loop fails with the first key (in declared order) absent
from the object. -/
theorem checkRequired_first_missing :
    ∀ (req : List (List Char)) (obj : JsonObj) (k : List Char),
      req.find? (fun key => !hasKey obj key) = some k →
      checkRequired req obj = Except.error (PipelineError.schemaViolation k) := by
  intro req
  induction req with
  | nil => intro obj k h; cases h
  | cons k0 rest ih =>
    intro obj k h
    by_cases hk : hasKey obj k0
    · rw [List.find?_cons_of_neg _ (by simp [hk])] at h
      rw [checkRequired, if_pos hk]
      exact ih obj k h
    · rw [List.find?_cons_of_pos _ (by simp [hk])] at h
      have hk0 : k0 = k := by injection h
      rw [checkRequired, if_neg hk, hk0]

/-- The required-key loop passes when every key is present. -/
theorem checkRequired_ok :
    ∀ (req : List (List Char)) (obj : JsonObj),
      req.all (fun k => hasKey obj k) = true →
      checkRequired req obj = Except.ok () := by
  intro req
  induction req with
  | nil => intro obj _; rfl
  | cons k0 rest ih =>
    intro obj h
    rw [List.all_cons, Bool.and_eq_true] at h
    rw [checkRequired, if_pos h.1]
    exact ih obj h.2

/-- Validation after a passed key check applies exactly the spec's coercion
to the list-typed field. -/
theorem validateSummary_coerces :
    ∀ (req : List (List Char)) (listKey : List Char) (obj : JsonObj) (v : Json),
      lookupKey obj listKey = some v →
      req.all (fun k => hasKey obj k) = true →
      validateSummary req listKey obj =
        Except.ok (objUpdate obj listKey (coerceListFieldSpec v)) := by
  intro req listKey obj v hv hall
  unfold validateSummary
  rw [checkRequired_ok req obj hall, hv]
  cases v with
  | arr l => rw [coerceListFieldSpec, objUpdate_self obj listKey (Json.arr l) hv]
  | str s => rfl
  | num n => rfl
  | bool b => rfl
  | null => rfl
  | obj m => rfl

/-- C4: for every parsed JSON response containing all required keys of the
active variant, validation never fails, and the list-typed field
(`key_points` in Variant A, `key_findings` in Variant B) is coerced exactly
as the spec's tagged coercion describes: a list is kept as-is, a bare string
`s` becomes `[s]`, and any other value becomes the empty list. -/
theorem list_field_coercion :
    (∀ (obj : JsonObj) (v : Json),
      lookupKey obj keyPointsKey = some v →
      requiredKeysA.all (fun k => hasKey obj k) = true →
      validateSummary requiredKeysA keyPointsKey obj =
        Except.ok (objUpdate obj keyPointsKey (coerceListFieldSpec v))) ∧
    (∀ (obj : JsonObj) (v : Json),
      lookupKey obj keyFindingsKey = some v →
      requiredKeysB.all (fun k => hasKey obj k) = true →
      validateSummary requiredKeysB keyFindingsKey obj =
        Except.ok (objUpdate obj keyFindingsKey (coerceListFieldSpec v))) :=
  ⟨fun obj v hv hall => validateSummary_coerces requiredKeysA keyPointsKey obj v hv hall,
   fun obj v hv hall => validateSummary_coerces requiredKeysB keyFindingsKey obj v hv hall⟩

/-- C4 witness: a Variant A response whose `key_points` value is the bare
string `"P"` validates successfully with `key_points` wrapped into `["P"]`. -/
theorem list_field_coercion_witness :
    validateSummary requiredKeysA keyPointsKey c4Obj =
      Except.ok (objUpdate c4Obj keyPointsKey (coerceListFieldSpec (Json.str (("P").toList)))) :=
  list_field_coercion.1 c4Obj (Json.str (("P").toList)) rfl rfl

/-- C5: for every parsed JSON response missing at least one required key of
the active variant, validation fails with a `SchemaViolationError` naming the
first missing required key in the schema's declared order (the first key of
the required list on which the membership test fails). -/
theorem first_missing_key_error :
    (∀ (obj : JsonObj) (k : List Char),
      requiredKeysA.find? (fun key => !hasKey obj key) = some k →
      validateSummary requiredKeysA keyPointsKey obj =
        Except.error (PipelineError.schemaViolation k)) ∧
    (∀ (obj : JsonObj) (k : List Char),
      requiredKeysB.find? (fun key => !hasKey obj key) = some k →
      validateSummary requiredKeysB keyFindingsKey obj =
        Except.error (PipelineError.schemaViolation k)) := by
  constructor
  · intro obj k h
    unfold validateSummary
    rw [checkRequired_first_missing requiredKeysA obj k h]
  · intro obj k h
    unfold validateSummary
    rw [checkRequired_first_missing requiredKeysB obj k h]

/-- C5 witness: spec scenario 4 — the Variant A response containing only
`title` fails naming `abstract_summary`, the first missing required key in
declared order. -/
theorem first_missing_key_error_witness :
    validateSummary requiredKeysA keyPointsKey c5Obj =
      Except.error (PipelineError.schemaViolation abstractSummaryKey) :=
  first_missing_key_error.1 c5Obj abstractSummaryKey (by decide)

/-- A string starts with itself followed by anything. -/
theorem startsWithL_append_self (pre rest : List Char) :
    startsWithL pre (pre ++ rest) = true := by
  unfold startsWithL
  rw [List.take_left]
  simp

/-- A string whose first character differs from the pattern's first character
does not start with the pattern. -/
theorem startsWithL_false_of_head_ne {pre s : List Char} {c d : Char}
    (hs : s.head? = some c) (hp : pre.head? = some d) (h : c ≠ d) :
    startsWithL pre s = false := by
  cases hb : startsWithL pre s
  · rfl
  · exfalso
    obtain ⟨t, ht⟩ := startsWithL_iff.mp hb
    have hor : s.head? = pre.head?.or t.head? := by
      rw [← ht, List.head?_append]
    rw [hs, hp] at hor
    have hcd : c = d := by
      simp [Option.or] at hor
      exact hor
    exact h hcd

/-- A string ends with its own suffix. -/
theorem endsWithL_append_self (suf s : List Char) :
    endsWithL suf (s ++ suf) = true := by
  unfold endsWithL
  have h1 : (s ++ suf).length - suf.length = s.length := by
    rw [List.length_append]
    omega
  rw [h1, List.drop_left]
  simp

/-- A string whose last character differs from the pattern's last character
does not end with the pattern. -/
theorem endsWithL_false_of_getLast_ne {suf s : List Char} {c d : Char}
    (hs : s.getLast? = some c) (hp : suf.getLast? = some d) (h : c ≠ d) :
    endsWithL suf s = false := by
  cases hb : endsWithL suf s
  · rfl
  · exfalso
    obtain ⟨t, ht⟩ := endsWithL_iff.mp hb
    have hor : s.getLast? = suf.getLast?.or t.getLast? := by
      rw [← ht, List.getLast?_append]
    rw [hs, hp] at hor
    have hcd : c = d := by
      simp [Option.or] at hor
      exact hor
    exact h hcd

/-- Fence stripping of a tagged-fence wrap yields the stripped body. -/
theorem stripFences_tagged (raw : List Char) (hne : raw ≠ [])
    (hhead : raw.head? ≠ some backtick) :
    stripFences (pyStrip (fence7 ++ raw ++ bt3)) = pyStrip raw := by
  obtain ⟨c, t, hraw⟩ : ∃ c t, raw = c :: t := by
    cases raw with
    | nil => exact absurd rfl hne
    | cons c t => exact ⟨c, t, rfl⟩
  have hrawhead : raw.head? = some c := by
    rw [hraw]
    rfl
  have hcb : c ≠ backtick := fun he => hhead (by rw [hrawhead, he])
  have hfh : (fence7 ++ raw ++ bt3).head? = some backtick := by
    rw [List.append_assoc, List.head?_append]
    rfl
  have hfl : (fence7 ++ raw ++ bt3).getLast? = some backtick := by
    rw [List.getLast?_append]
    rfl
  have hsfc : pyStrip (fence7 ++ raw ++ bt3) = fence7 ++ raw ++ bt3 := by
    apply pyStrip_eq_self
    · intro e he
      rw [hfh] at he
      have hbe : backtick = e := by injection he
      rw [← hbe]
      decide
    · intro e he
      rw [hfl] at he
      have hbe : backtick = e := by injection he
      rw [← hbe]
      decide
  have h1 : startsWithL fence7 (fence7 ++ raw ++ bt3) = true := by
    rw [List.append_assoc]
    exact startsWithL_append_self fence7 (raw ++ bt3)
  have hdrop7 : (fence7 ++ raw ++ bt3).drop 7 = raw ++ bt3 := by
    rw [List.append_assoc]
    exact List.drop_left' rfl
  have h2 : startsWithL bt3 (raw ++ bt3) = false := by
    apply startsWithL_false_of_head_ne ?hs ?hp hcb
    case hs =>
      rw [List.head?_append, hrawhead]
      rfl
    case hp => rfl
  have h3 : endsWithL bt3 (raw ++ bt3) = true := endsWithL_append_self bt3 raw
  have htake3 : (raw ++ bt3).take ((raw ++ bt3).length - 3) = raw := by
    have hb3 : bt3.length = 3 := rfl
    have hlen : (raw ++ bt3).length - 3 = raw.length := by
      rw [List.length_append, hb3]
      omega
    rw [hlen]
    exact List.take_left raw bt3
  rw [hsfc]
  simp only [stripFences]
  rw [if_pos h1, hdrop7]
  rw [if_neg (show ¬ (startsWithL bt3 (raw ++ bt3) = true) by simp [h2])]
  rw [if_pos h3, htake3]

/-- Fence stripping of a bare-fence wrap yields the stripped body, provided
the body followed by the trailing fence does not begin with the tag `json`. -/
theorem stripFences_bare (raw : List Char) (hne : raw ≠ [])
    (hhead : raw.head? ≠ some backtick)
    (hjson : ¬ (jsonTag <+: raw ++ bt3)) :
    stripFences (pyStrip (bt3 ++ raw ++ bt3)) = pyStrip raw := by
  obtain ⟨c, t, hraw⟩ : ∃ c t, raw = c :: t := by
    cases raw with
    | nil => exact absurd rfl hne
    | cons c t => exact ⟨c, t, rfl⟩
  have hrawhead : raw.head? = some c := by
    rw [hraw]
    rfl
  have hcb : c ≠ backtick := fun he => hhead (by rw [hrawhead, he])
  have hfh : (bt3 ++ raw ++ bt3).head? = some backtick := by
    rw [List.append_assoc, List.head?_append]
    rfl
  have hfl : (bt3 ++ raw ++ bt3).getLast? = some backtick := by
    rw [List.getLast?_append]
    rfl
  have hsfc : pyStrip (bt3 ++ raw ++ bt3) = bt3 ++ raw ++ bt3 := by
    apply pyStrip_eq_self
    · intro e he
      rw [hfh] at he
      have hbe : backtick = e := by injection he
      rw [← hbe]
      decide
    · intro e he
      rw [hfl] at he
      have hbe : backtick = e := by injection he
      rw [← hbe]
      decide
  have hts : startsWithL fence7 (bt3 ++ raw ++ bt3) = false := by
    cases hb : startsWithL fence7 (bt3 ++ raw ++ bt3)
    · rfl
    · exfalso
      have hp0 := startsWithL_iff.mp hb
      rw [List.append_assoc] at hp0
      have hf : fence7 = bt3 ++ jsonTag := by decide
      rw [hf, List.prefix_append_right_inj] at hp0
      exact hjson hp0
  have h2 : startsWithL bt3 (bt3 ++ raw ++ bt3) = true := by
    rw [List.append_assoc]
    exact startsWithL_append_self bt3 (raw ++ bt3)
  have hdrop3 : (bt3 ++ raw ++ bt3).drop 3 = raw ++ bt3 := by
    rw [List.append_assoc]
    exact List.drop_left' rfl
  have h3 : endsWithL bt3 (raw ++ bt3) = true := endsWithL_append_self bt3 raw
  have htake3 : (raw ++ bt3).take ((raw ++ bt3).length - 3) = raw := by
    have hb3 : bt3.length = 3 := rfl
    have hlen : (raw ++ bt3).length - 3 = raw.length := by
      rw [List.length_append, hb3]
      omega
    rw [hlen]
    exact List.take_left raw bt3
  rw [hsfc]
  simp only [stripFences]
  rw [if_neg (show ¬ (startsWithL fence7 (bt3 ++ raw ++ bt3) = true) by
    rw [hts]
    exact Bool.false_ne_true)]
  rw [if_pos h2, hdrop3]
  rw [if_pos h3, htake3]

/-- Fence stripping leaves an unfenced stripped body alone. -/
theorem stripFences_unfenced (raw : List Char) (hstrip : pyStrip raw = raw)
    (hne : raw ≠ []) (hhead : raw.head? ≠ some backtick)
    (hlast : raw.getLast? ≠ some backtick) :
    stripFences (pyStrip raw) = pyStrip raw := by
  obtain ⟨c, t, hraw⟩ : ∃ c t, raw = c :: t := by
    cases raw with
    | nil => exact absurd rfl hne
    | cons c t => exact ⟨c, t, rfl⟩
  have hrawhead : raw.head? = some c := by
    rw [hraw]
    rfl
  have hcb : c ≠ backtick := fun he => hhead (by rw [hrawhead, he])
  obtain ⟨d, hd⟩ : ∃ d, raw.getLast? = some d := by
    cases hq : raw.getLast? with
    | none => exact absurd (List.getLast?_eq_none_iff.mp hq) hne
    | some d => exact ⟨d, rfl⟩
  have hdb : d ≠ backtick := fun he => hlast (by rw [hd, he])
  have hr1 : startsWithL fence7 raw = false :=
    startsWithL_false_of_head_ne hrawhead rfl hcb
  have hr2 : startsWithL bt3 raw = false :=
    startsWithL_false_of_head_ne hrawhead rfl hcb
  have hr3 : endsWithL bt3 raw = false :=
    endsWithL_false_of_getLast_ne hd rfl hdb
  rw [hstrip]
  simp only [stripFences]
  rw [if_neg (show ¬ (startsWithL fence7 raw = true) by simp [hr1])]
  rw [if_neg (show ¬ (startsWithL bt3 raw = true) by simp [hr2])]
  rw [if_neg (show ¬ (endsWithL bt3 raw = true) by simp [hr3])]
  exact hstrip

/-- C6: response post-processing strips a leading fence marker (optionally
tagged `json`) and a trailing fence when present, then strips surrounding
whitespace, making fences transparent: for every response body
(whitespace-stripped, non-empty, boundary characters not backticks),
processing the body wrapped in `"```json" ... "```"` fences — or in bare
`"```" ... "```"` fences when the body followed by the trailing fence does
not begin with the tag `json` — gives exactly the same result (parse,
validation and coercion included) as processing the bare body. -/
theorem fenced_response_transparent :
    (∀ (req : List (List Char)) (listKey raw : List Char),
      pyStrip raw = raw → raw ≠ [] → raw.head? ≠ some backtick →
      raw.getLast? ≠ some backtick →
      processResponse req listKey (fence7 ++ raw ++ bt3) =
        processResponse req listKey raw) ∧
    (∀ (req : List (List Char)) (listKey raw : List Char),
      pyStrip raw = raw → raw ≠ [] → raw.head? ≠ some backtick →
      raw.getLast? ≠ some backtick → ¬ (jsonTag <+: raw ++ bt3) →
      processResponse req listKey (bt3 ++ raw ++ bt3) =
        processResponse req listKey raw) := by
  constructor
  · intro req listKey raw hstrip hne hhead hlast
    unfold processResponse
    rw [stripFences_tagged raw hne hhead,
        stripFences_unfenced raw hstrip hne hhead hlast]
  · intro req listKey raw hstrip hne hhead hlast hjson
    unfold processResponse
    rw [stripFences_bare raw hne hhead hjson,
        stripFences_unfenced raw hstrip hne hhead hlast]

/-- C6 witness: spec scenario 3 — a concrete valid Variant A JSON object
wrapped in a tagged fence pair parses and validates to the same successful
summary as the bare object. -/
theorem fenced_response_transparent_witness :
    processResponse requiredKeysA keyPointsKey (fence7 ++ jsonBodyEx ++ bt3) =
      Except.ok c6Expected :=
  (fenced_response_transparent.1 requiredKeysA keyPointsKey jsonBodyEx
    (by decide) (by decide) (by decide) (by decide)).trans (by rfl)
